import Mathlib

/-!
Verification development for the Dependency Mapping Tool.

The repository's environment-scoped graph store is specified by the TLA+
module `src/specs/DependencyMappingTool.tla`; its mutation engine is a Rust
backend consumed through the typed IPC wrappers in `src/services/tauri.ts`
(the Rust sources are not part of this snapshot).  The definitions below
embed, in order:

* the TLA+ state machine (state variables, actions, safety invariants),
  with error kinds taken from the specification's error taxonomy;
* the frontend cascade-delete flow of
  `src/components/editor/DeleteConfirmationModal.tsx` (`handleDelete`);
* the neighborhood query `get_service_graph`, modelled from the spec since
  only its IPC declaration is in the snapshot;
* the zustand services store of `src/store/servicesStore.ts`
  (JS `Map` construction, tag extraction) and the relationship validator of
  `src/components/editor/RelationshipEditorModal.tsx`.
-/

namespace DepMap

/-- A service record as in the TLA+ module (`Service == [id, serviceType,
status]`, src/specs/DependencyMappingTool.tla lines 49-53).  Field values are
open strings, as the spec demands. -/
structure Service where
  id : String
  serviceType : String
  status : String
deriving DecidableEq, Repr

/-- A relationship record as in the TLA+ module (`Relationship == [source,
target, relationshipType]`, lines 61-65). -/
structure Relationship where
  source : String
  target : String
  relationshipType : String
deriving DecidableEq, Repr

/-- The identifying triple of a relationship, unique per environment
(spec section 3, invariant 4). -/
def relKey (r : Relationship) : String × String × String :=
  (r.source, r.target, r.relationshipType)

/-- The TLA+ CONSTANTS `MaxServices`, `MaxRelationships`, `MaxEnvironments`
(lines 23-26): implementation-defined capacity limits. -/
structure Config where
  maxEnvironments : Nat
  maxServices : Nat
  maxRelationships : Nat
deriving DecidableEq, Repr

/-- Error kinds of the specification's error taxonomy (spec section 7).  The
Rust backend that raises them is not part of the snapshot, so the kinds are
taken from the spec's vocabulary. -/
inductive StoreError where
  | notFound
  | alreadyExists
  | duplicateId
  | duplicateEdge
  | danglingEndpoint
  | selfLoop
  | capacityExceeded
deriving DecidableEq, Repr

/-- The TLA+ VARIABLES (lines 67-72): tracked environment names, the
current-environment pointer (`"-"` is rendered as `none`), and per-environment
service and relationship sets (here: lists indexed by environment name). -/
structure StoreState where
  environments : List String
  currentEnvironment : Option String
  services : String → List Service
  relationships : String → List Relationship
  validationErrors : List String

/-- Pointwise update of an environment-indexed table, the Lean rendering of
the TLA+ `[f EXCEPT ![env] = l]`. -/
def updFn (f : String → List α) (env : String) (l : List α) : String → List α :=
  fun e => if e = env then l else f e

/-- The TLA+ `ServiceExists(env, serviceId)` helper (lines 152-153), applied
to one environment's service list. -/
def existsId (l : List Service) (i : String) : Bool :=
  l.any (fun sv => sv.id == i)

/-- The TLA+ `RelationshipsForService(env, serviceId)` helper (lines
158-159): relationships touching a service as source or target. -/
def relsTouching (l : List Relationship) (i : String) : List Relationship :=
  l.filter (fun r => r.source == i || r.target == i)

/-- The TLA+ `Init` state (lines 179-184): no environments, no current
environment, all service and relationship sets empty. -/
def initState : StoreState :=
  { environments := []
    currentEnvironment := none
    services := fun _ => []
    relationships := fun _ => []
    validationErrors := [] }

/-- Embeds the TLA+ action `CreateEnvironment` (lines 202-209): rejected when
the name is tracked or the environment cap is reached; on success the
environment is added and becomes current when no current environment was set.
Error kinds per spec section 4.1. -/
def createEnvironment (cfg : Config) (s : StoreState) (name : String) :
    Except StoreError StoreState :=
  if name ∈ s.environments then .error .alreadyExists
  else if cfg.maxEnvironments ≤ s.environments.length then .error .capacityExceeded
  else .ok { s with
    environments := name :: s.environments
    currentEnvironment := some (s.currentEnvironment.getD name) }

/-- Embeds the TLA+ action `SwitchEnvironment` (lines 220-224): only the
current-environment pointer changes.  Error kind per spec section 4.1. -/
def switchEnvironment (s : StoreState) (name : String) :
    Except StoreError StoreState :=
  if name ∈ s.environments then .ok { s with currentEnvironment := some name }
  else .error .notFound

/-- Embeds the TLA+ action `CreateService` (lines 242-251), parameterized by
the target environment as the backend command `save_service` is; guards in
the TLA+ order, error kinds per spec section 4.1. -/
def createService (cfg : Config) (s : StoreState) (env : String)
    (svc : Service) : Except StoreError StoreState :=
  if env ∉ s.environments then .error .notFound
  else if existsId (s.services env) svc.id then .error .duplicateId
  else if cfg.maxServices ≤ (s.services env).length then .error .capacityExceeded
  else .ok { s with services := updFn s.services env (svc :: s.services env) }

/-- Embeds the TLA+ action `UpdateService` (lines 263-270): replaces the
record with the matching id, keeping the id itself. -/
def updateService (s : StoreState) (env i newType newStatus : String) :
    Except StoreError StoreState :=
  if env ∉ s.environments then .error .notFound
  else if existsId (s.services env) i then
    .ok { s with services := (updFn s.services env
      ((s.services env).map (fun sv =>
        if sv.id == i then { id := i, serviceType := newType, status := newStatus }
        else sv))) }
  else .error .notFound

/-- Embeds the TLA+ action `UnsafeDeleteService` (lines 286-292), the plain
delete exposed as the backend command `delete_service`
(src/services/tauri.ts lines 169-174): removes the service only and leaves
every relationship in place. -/
def deleteService (s : StoreState) (env i : String) :
    Except StoreError StoreState :=
  if env ∉ s.environments then .error .notFound
  else if existsId (s.services env) i then
    .ok { s with services := (updFn s.services env
      ((s.services env).filter (fun sv => !(sv.id == i)))) }
  else .error .notFound

/-- Embeds the TLA+ action `SafeDeleteService` (lines 307-316): removes every
relationship touching the service together with the service itself, in one
transition. -/
def safeDeleteService (s : StoreState) (env i : String) :
    Except StoreError StoreState :=
  if env ∉ s.environments then .error .notFound
  else if existsId (s.services env) i then
    .ok { s with
      services := updFn s.services env
        ((s.services env).filter (fun sv => !(sv.id == i)))
      relationships := updFn s.relationships env
        ((s.relationships env).filter (fun r => !(r.source == i || r.target == i))) }
  else .error .notFound

/-- Embeds the TLA+ action `CreateRelationship` (lines 336-349).  The TLA+
guards are an unordered conjunction; the self-loop check is placed before the
endpoint checks, following the spec's testable property "self-loop rejection
always fails with SelfLoop" (section 8) and the frontend validator
`validateRelationship`, which flags `source = target` without consulting
service existence. -/
def createRelationship (cfg : Config) (s : StoreState) (env : String)
    (rel : Relationship) : Except StoreError StoreState :=
  if env ∉ s.environments then .error .notFound
  else if rel.source == rel.target then .error .selfLoop
  else if !(existsId (s.services env) rel.source) then .error .danglingEndpoint
  else if !(existsId (s.services env) rel.target) then .error .danglingEndpoint
  else if (s.relationships env).any (fun r => relKey r == relKey rel) then
    .error .duplicateEdge
  else if cfg.maxRelationships ≤ (s.relationships env).length then
    .error .capacityExceeded
  else .ok { s with relationships := (updFn s.relationships env
    (rel :: s.relationships env)) }

/-- Embeds the TLA+ action `DeleteRelationship` (lines 361-369): removes the
relationship with the given (source, target, type) triple. -/
def deleteRelationship (s : StoreState) (env : String) (rel : Relationship) :
    Except StoreError StoreState :=
  if env ∉ s.environments then .error .notFound
  else if (s.relationships env).any (fun r => relKey r == relKey rel) then
    .ok { s with relationships := (updFn s.relationships env
      ((s.relationships env).filter (fun r => !(relKey r == relKey rel)))) }
  else .error .notFound

/-- Embeds the TLA+ action `ValidateEnvironment` (lines 383-391): a read-only
scan of the current environment recording whether orphaned relationships
exist; services and relationships are untouched. -/
def validateEnvironment (s : StoreState) : Except StoreError StoreState :=
  match s.currentEnvironment with
  | none => .error .notFound
  | some env =>
      let orphaned := (s.relationships env).filter (fun r =>
        !(existsId (s.services env) r.source) || !(existsId (s.services env) r.target))
      .ok { s with validationErrors :=
        if orphaned.isEmpty then [] else ["Orphaned relationships found"] }

/-- The operations of the TLA+ `Next` relation (lines 400-412): environment
creation and switching, service create/update/safe-delete, relationship
create/delete, and validation. -/
inductive Op where
  | createEnvironment (name : String)
  | switchEnvironment (name : String)
  | createService (env : String) (svc : Service)
  | updateService (env i newType newStatus : String)
  | safeDeleteService (env i : String)
  | createRelationship (env : String) (rel : Relationship)
  | deleteRelationship (env : String) (rel : Relationship)
  | validate
deriving DecidableEq, Repr

/-- Dispatches one operation against the store. -/
def applyOp (cfg : Config) (op : Op) (s : StoreState) :
    Except StoreError StoreState :=
  match op with
  | .createEnvironment name => createEnvironment cfg s name
  | .switchEnvironment name => switchEnvironment s name
  | .createService env svc => createService cfg s env svc
  | .updateService env i t st => updateService s env i t st
  | .safeDeleteService env i => safeDeleteService s env i
  | .createRelationship env rel => createRelationship cfg s env rel
  | .deleteRelationship env rel => deleteRelationship s env rel
  | .validate => validateEnvironment s

/-- One step of the store: an accepted operation commits its new state, a
rejected one leaves the store unchanged (spec section 7: rejections are
recoverable and effect-free). -/
def step (cfg : Config) (s : StoreState) (op : Op) : StoreState :=
  match applyOp cfg op s with
  | .ok s' => s'
  | .error _ => s

/-- Runs a sequence of operations from the TLA+ initial state. -/
def run (cfg : Config) (ops : List Op) : StoreState :=
  ops.foldl (step cfg) initState

/-- Invariant 1 (spec section 3 / TLA+ `NoDuplicateServiceIds`, lines
105-108): no two services of one environment share an id. -/
def NoDupServiceIds (s : StoreState) : Prop :=
  ∀ env, ((s.services env).map Service.id).Nodup

/-- Invariant 2 (TLA+ `RelationshipsHaveValidEndpoints`, lines 114-118):
every relationship's endpoints name services of the same environment. -/
def ValidEndpoints (s : StoreState) : Prop :=
  ∀ env, ∀ r ∈ s.relationships env,
    existsId (s.services env) r.source = true ∧
    existsId (s.services env) r.target = true

/-- Invariant 3 (TLA+ `NoSelfRelationships`, lines 123-126): no relationship
is a self-loop. -/
def NoSelfLoops (s : StoreState) : Prop :=
  ∀ env, ∀ r ∈ s.relationships env, r.source ≠ r.target

/-- Invariant 4 (spec section 3): no two relationships of one environment
share the (source, target, relationshipType) triple. -/
def NoDupEdges (s : StoreState) : Prop :=
  ∀ env, ((s.relationships env).map relKey).Nodup

/-- Invariant 5 (TLA+ `CurrentEnvironmentValid`, lines 99-100): the
current-environment pointer is unset or names a tracked environment. -/
def CurrentValid (s : StoreState) : Prop :=
  ∀ c, s.currentEnvironment = some c → c ∈ s.environments

/-- The conjunction of invariants 1-5, the TLA+ `SafetyInvariant`
(lines 131-136). -/
def Invariant (s : StoreState) : Prop :=
  NoDupServiceIds s ∧ ValidEndpoints s ∧ NoSelfLoops s ∧ NoDupEdges s ∧
    CurrentValid s

theorem existsId_iff {l : List Service} {i : String} :
    existsId l i = true ↔ i ∈ l.map Service.id := by
  simp [existsId, List.any_eq_true, List.mem_map]

theorem updFn_same (f : String → List α) (env : String) (l : List α) :
    updFn f env l env = l := by
  simp [updFn]

theorem updFn_ne (f : String → List α) {env e : String} (l : List α)
    (h : e ≠ env) : updFn f env l e = f e := by
  simp [updFn, h]

theorem step_of_error {cfg : Config} {op : Op} {s : StoreState}
    {e : StoreError} (h : applyOp cfg op s = .error e) : step cfg s op = s := by
  simp [step, h]

theorem step_of_ok {cfg : Config} {op : Op} {s s' : StoreState}
    (h : applyOp cfg op s = .ok s') : step cfg s op = s' := by
  simp [step, h]

/-- A sample configuration for concrete evaluation. -/
def cfg4 : Config := ⟨4, 4, 4⟩

/-- Sample service "a". -/
def svcA : Service := ⟨"a", "api", "healthy"⟩

/-- Sample service "b". -/
def svcB : Service := ⟨"b", "database", "healthy"⟩

/-- Sample relationship from "a" to "b". -/
def relAB : Relationship := ⟨"a", "b", "depends_on"⟩

/-- A concrete store with one environment "dev" holding services "a", "b"
and the relationship "a" -> "b". -/
def sampleState : StoreState :=
  { environments := ["dev"]
    currentEnvironment := some "dev"
    services := fun e => if e = "dev" then [svcA, svcB] else []
    relationships := fun e => if e = "dev" then [relAB] else []
    validationErrors := [] }

/-- C6: `createEnvironment(name)` fails with `AlreadyExists` when the name is
tracked, fails with `CapacityExceeded` when the environment cap is reached,
and otherwise adds the environment; the new environment becomes current
exactly when no current environment was set. -/
theorem createEnvironment_spec (cfg : Config) (s : StoreState) (name : String) :
    (name ∈ s.environments →
      createEnvironment cfg s name = .error .alreadyExists) ∧
    (name ∉ s.environments → cfg.maxEnvironments ≤ s.environments.length →
      createEnvironment cfg s name = .error .capacityExceeded) ∧
    (name ∉ s.environments → s.environments.length < cfg.maxEnvironments →
      ∃ s', createEnvironment cfg s name = .ok s' ∧
        name ∈ s'.environments ∧
        (s.currentEnvironment = none → s'.currentEnvironment = some name) ∧
        (∀ c, s.currentEnvironment = some c → s'.currentEnvironment = some c) ∧
        s'.services = s.services ∧ s'.relationships = s.relationships) := by
  refine ⟨fun h => ?_, fun h hc => ?_, fun h hc => ?_⟩
  · simp [createEnvironment, h]
  · simp [createEnvironment, h, hc]
  · refine ⟨{ s with
        environments := name :: s.environments
        currentEnvironment := some (s.currentEnvironment.getD name) },
      ?_, ?_, ?_, ?_, rfl, rfl⟩
    · simp [createEnvironment, h, Nat.not_le.mpr hc]
    · exact List.mem_cons_self _ _
    · intro hcur; simp [hcur]
    · intro c hcur; simp [hcur]

/-- Witness for C6: creating "dev" in the empty store succeeds and makes
"dev" current. -/
theorem createEnvironment_spec_witness :
    ∃ s', createEnvironment cfg4 initState "dev" = .ok s' ∧
      "dev" ∈ s'.environments ∧
      (initState.currentEnvironment = none → s'.currentEnvironment = some "dev") ∧
      (∀ c, initState.currentEnvironment = some c →
        s'.currentEnvironment = some c) ∧
      s'.services = initState.services ∧
      s'.relationships = initState.relationships :=
  (createEnvironment_spec cfg4 initState "dev").2.2 (by decide) (by decide)

/-- C7: `switchEnvironment(name)` fails with `NotFound` for an untracked
name; on success it changes only the current-environment pointer: tracked
environments and every environment's service and relationship sets are
untouched. -/
theorem switchEnvironment_spec (s : StoreState) (name : String) :
    (name ∉ s.environments → switchEnvironment s name = .error .notFound) ∧
    (name ∈ s.environments →
      ∃ s', switchEnvironment s name = .ok s' ∧
        s'.currentEnvironment = some name ∧
        s'.environments = s.environments ∧
        s'.services = s.services ∧ s'.relationships = s.relationships) := by
  refine ⟨fun h => ?_, fun h => ?_⟩
  · simp [switchEnvironment, h]
  · exact ⟨{ s with currentEnvironment := some name },
      by simp [switchEnvironment, h], rfl, rfl, rfl, rfl⟩

/-- Witness for C7: switching the sample store to "dev" succeeds and leaves
everything but the pointer unchanged. -/
theorem switchEnvironment_spec_witness :
    ∃ s', switchEnvironment sampleState "dev" = .ok s' ∧
      s'.currentEnvironment = some "dev" ∧
      s'.environments = sampleState.environments ∧
      s'.services = sampleState.services ∧
      s'.relationships = sampleState.relationships :=
  (switchEnvironment_spec sampleState "dev").2 (by decide)

/-- C8: the plain `deleteService(E, id)` fails with `NotFound` when the id is
absent, and on success removes exactly the services carrying that id from
`E`, leaving every relationship set (and every other environment) unchanged,
so relationships naming the deleted id may dangle. -/
theorem deleteService_spec (s : StoreState) (env i : String) :
    ((env ∉ s.environments ∨ existsId (s.services env) i = false) →
      deleteService s env i = .error .notFound) ∧
    (env ∈ s.environments → existsId (s.services env) i = true →
      ∃ s', deleteService s env i = .ok s' ∧
        (∀ sv, sv ∈ s'.services env ↔ sv ∈ s.services env ∧ sv.id ≠ i) ∧
        (∀ e, e ≠ env → s'.services e = s.services e) ∧
        s'.relationships = s.relationships ∧
        s'.environments = s.environments) := by
  constructor
  · rintro (h | h)
    · simp [deleteService, h]
    · simp [deleteService, h]
  · intro henv hex
    refine ⟨{ s with services := (updFn s.services env
        ((s.services env).filter (fun sv => !(sv.id == i)))) },
      by simp [deleteService, henv, hex], ?_, ?_, rfl, rfl⟩
    · intro sv
      simp [updFn_same, List.mem_filter]
    · intro e he
      simp [updFn_ne _ _ he]

/-- Witness for C8: deleting "a" from the sample store keeps "b", keeps the
relationship list (now dangling), and fails with `NotFound` for a missing
id. -/
theorem deleteService_spec_witness :
    (∃ s', deleteService sampleState "dev" "a" = .ok s' ∧
      (∀ sv, sv ∈ s'.services "dev" ↔
        sv ∈ sampleState.services "dev" ∧ sv.id ≠ "a") ∧
      (∀ e, e ≠ "dev" → s'.services e = sampleState.services e) ∧
      s'.relationships = sampleState.relationships ∧
      s'.environments = sampleState.environments) ∧
    deleteService sampleState "dev" "zz" = .error .notFound :=
  ⟨(deleteService_spec sampleState "dev" "a").2 (by decide) (by decide),
   (deleteService_spec sampleState "dev" "zz").1 (Or.inr (by decide))⟩

theorem relKeyMem_any {l : List Relationship} {rel : Relationship}
    (h : relKey rel ∈ l.map relKey) :
    l.any (fun r => relKey r == relKey rel) = true := by
  obtain ⟨r, hr, he⟩ := List.mem_map.mp h
  simp only [List.any_eq_true]
  exact ⟨r, hr, by simp [he]⟩

/-- C3: creating a service whose id already exists in `E`, or a relationship
whose (source, target, type) triple already exists in `E`, is rejected with
an error and the store state is left unchanged. -/
theorem duplicate_rejection (cfg : Config) (s : StoreState) (env : String)
    (svc : Service) (rel : Relationship)
    (hsvc : svc.id ∈ (s.services env).map Service.id)
    (hrel : relKey rel ∈ (s.relationships env).map relKey) :
    (∃ e, applyOp cfg (.createService env svc) s = .error e) ∧
    step cfg s (.createService env svc) = s ∧
    (∃ e, applyOp cfg (.createRelationship env rel) s = .error e) ∧
    step cfg s (.createRelationship env rel) = s := by
  have hcs : ∃ e, createService cfg s env svc = .error e := by
    by_cases henv : env ∈ s.environments
    · exact ⟨.duplicateId, by simp [createService, henv, existsId_iff.mpr hsvc]⟩
    · exact ⟨.notFound, by simp [createService, henv]⟩
  have hnok : ∀ s', createRelationship cfg s env rel ≠ .ok s' := by
    intro s' hok
    unfold createRelationship at hok
    repeat' split at hok
    all_goals simp_all [relKeyMem_any hrel]
  have hcr : ∃ e, createRelationship cfg s env rel = .error e := by
    cases h : createRelationship cfg s env rel with
    | ok s' => exact absurd h (hnok s')
    | error e => exact ⟨e, rfl⟩
  obtain ⟨e1, he1⟩ := hcs
  obtain ⟨e2, he2⟩ := hcr
  exact ⟨⟨e1, he1⟩, step_of_error he1, ⟨e2, he2⟩, step_of_error he2⟩

/-- Witness for C3: in the sample store, re-creating service "a" and
re-creating the relationship "a" -> "b" (depends_on) are both rejected
without effect. -/
theorem duplicate_rejection_witness :
    (∃ e, applyOp cfg4 (.createService "dev" svcA) sampleState = .error e) ∧
    step cfg4 sampleState (.createService "dev" svcA) = sampleState ∧
    (∃ e, applyOp cfg4 (.createRelationship "dev" relAB) sampleState =
      .error e) ∧
    step cfg4 sampleState (.createRelationship "dev" relAB) = sampleState :=
  duplicate_rejection cfg4 sampleState "dev" svcA relAB (by decide) (by decide)

/-- A partial relationship draft as edited in the frontend form; a missing
field is `none` (JS `undefined`). -/
structure RelDraft where
  source : Option String
  target : Option String
  relationshipType : Option String
deriving DecidableEq, Repr

/-- JS truthiness of an optional string: `undefined` and `""` are falsy. -/
def isTruthy : Option String → Bool
  | none => false
  | some str => !(str == "")

/-- The field-error record built by the frontend relationship validator. -/
structure RelErrors where
  sourceErr : Option String
  targetErr : Option String
  typeErr : Option String
deriving DecidableEq, Repr

/-- Embeds `validateRelationship` of
src/components/editor/RelationshipEditorModal.tsx (lines 367-390): source and
target are required (non-empty after trimming), source and target must
differ, and the relationship type is required; the self-loop message
overwrites a prior required-target message. -/
def validateRelationship (rel : RelDraft) : RelErrors :=
  let e0 : RelErrors := ⟨none, none, none⟩
  let e1 := if !(isTruthy (rel.source.map String.trim)) then
    { e0 with sourceErr := some "Source service is required" } else e0
  let e2 := if !(isTruthy (rel.target.map String.trim)) then
    { e1 with targetErr := some "Target service is required" } else e1
  let e3 := if isTruthy rel.source && isTruthy rel.target &&
      rel.source == rel.target then
    { e2 with targetErr := some "Source and target cannot be the same service" }
    else e2
  if !(isTruthy rel.relationshipType) then
    { e3 with typeErr := some "Relationship type is required" } else e3

/-- True when the validator produced a field error, the guard
`Object.keys(validationErrors).length > 0` in `handleSave`. -/
def hasRelErrors (e : RelErrors) : Bool :=
  e.sourceErr.isSome || e.targetErr.isSome || e.typeErr.isSome

/-- Embeds the save guard of `handleSave` (RelationshipEditorModal lines
398-405): the backend `saveRelationship` call is reached only when the
validator returned no errors. -/
def relationshipSaveProceeds (rel : RelDraft) : Bool :=
  !(hasRelErrors (validateRelationship rel))

/-- C4: a relationship whose source equals its target is rejected with
`SelfLoop` and the store is unchanged; the frontend validator likewise
blocks the save for such a draft, so no backend mutation is issued. -/
theorem selfloop_rejection (cfg : Config) (s : StoreState) (env : String)
    (rel : Relationship) (henv : env ∈ s.environments)
    (hloop : rel.source = rel.target) :
    applyOp cfg (.createRelationship env rel) s = .error .selfLoop ∧
    step cfg s (.createRelationship env rel) = s ∧
    (rel.source ≠ "" →
      relationshipSaveProceeds
        ⟨some rel.source, some rel.target, some rel.relationshipType⟩ =
        false) := by
  have h1 : applyOp cfg (.createRelationship env rel) s = .error .selfLoop := by
    simp [applyOp, createRelationship, henv, hloop]
  refine ⟨h1, step_of_error h1, fun hne => ?_⟩
  simp only [relationshipSaveProceeds, validateRelationship, hasRelErrors,
    ← hloop]
  have htr : isTruthy (some rel.source) = true := by
    simp [isTruthy, hne]
  simp [htr]
  split <;> split <;> simp

/-- Witness for C4: creating the self-loop "a" -> "a" in the sample store is
rejected with `SelfLoop` and changes nothing, and the frontend blocks the
same draft. -/
theorem selfloop_rejection_witness :
    applyOp cfg4 (.createRelationship "dev" ⟨"a", "a", "depends_on"⟩)
      sampleState = .error .selfLoop ∧
    step cfg4 sampleState (.createRelationship "dev" ⟨"a", "a", "depends_on"⟩) =
      sampleState ∧
    ((⟨"a", "a", "depends_on"⟩ : Relationship).source ≠ "" →
      relationshipSaveProceeds ⟨some "a", some "a", some "depends_on"⟩ =
        false) :=
  selfloop_rejection cfg4 sampleState "dev" ⟨"a", "a", "depends_on"⟩
    (by decide) rfl

theorem existsId_not_mem {l : List Service} {i : String}
    (h : existsId l i = false) : i ∉ l.map Service.id := fun hmem => by
  simp [existsId_iff.mpr hmem] at h

theorem existsId_mono {sv : Service} {l : List Service} {i : String}
    (h : existsId l i = true) : existsId (sv :: l) i = true := by
  simp only [existsId, List.any_cons, Bool.or_eq_true]
  exact Or.inr h

theorem existsId_filter {l : List Service} {x i : String}
    (h : existsId l x = true) (hne : x ≠ i) :
    existsId (l.filter (fun sv => !(sv.id == i))) x = true := by
  rw [existsId_iff] at h ⊢
  obtain ⟨sv, hsv, hid⟩ := List.mem_map.mp h
  exact List.mem_map.mpr
    ⟨sv, List.mem_filter.mpr ⟨hsv, by simp [hid, hne]⟩, hid⟩

theorem map_id_update (l : List Service) (i t st : String) :
    ((l.map (fun sv => if sv.id == i then
      ({ id := i, serviceType := t, status := st } : Service) else sv)).map
        Service.id) = l.map Service.id := by
  rw [List.map_map]
  refine List.map_congr_left fun sv _ => ?_
  by_cases hsv : sv.id = i
  · simp [Function.comp, hsv]
  · simp [Function.comp, hsv]

theorem existsId_update (l : List Service) (i t st x : String) :
    existsId (l.map (fun sv => if sv.id == i then
      ({ id := i, serviceType := t, status := st } : Service) else sv)) x =
      existsId l x := by
  cases h : existsId l x with
  | true => rw [existsId_iff, map_id_update]; exact existsId_iff.mp h
  | false =>
      rw [← Bool.not_eq_true]
      intro hx
      rw [existsId_iff, map_id_update] at hx
      exact existsId_not_mem h hx

theorem invariant_initState : Invariant initState :=
  ⟨fun _ => List.nodup_nil, fun _ r hr => absurd hr (List.not_mem_nil r),
   fun _ r hr => absurd hr (List.not_mem_nil r), fun _ => List.nodup_nil,
   fun _ hc => by exact Option.noConfusion hc⟩

theorem invariant_createEnvironment {cfg : Config} {s : StoreState}
    {name : String} {s' : StoreState}
    (h : createEnvironment cfg s name = .ok s') (inv : Invariant s) :
    Invariant s' := by
  unfold createEnvironment at h
  split at h
  · simp at h
  split at h
  · simp at h
  cases h
  dsimp only [Invariant, NoDupServiceIds, ValidEndpoints, NoSelfLoops,
    NoDupEdges, CurrentValid]
  obtain ⟨i1, i2, i3, i4, i5⟩ := inv
  refine ⟨i1, i2, i3, i4, fun c hc => ?_⟩
  cases hcur : s.currentEnvironment with
  | none =>
      simp [hcur] at hc
      subst hc
      exact List.mem_cons_self _ _
  | some c0 =>
      simp [hcur] at hc
      subst hc
      exact List.mem_cons_of_mem _ (i5 _ hcur)

theorem invariant_switchEnvironment {s : StoreState} {name : String}
    {s' : StoreState} (h : switchEnvironment s name = .ok s')
    (inv : Invariant s) : Invariant s' := by
  unfold switchEnvironment at h
  split at h
  case isTrue hmem =>
    cases h
    dsimp only [Invariant, NoDupServiceIds, ValidEndpoints, NoSelfLoops,
      NoDupEdges, CurrentValid]
    obtain ⟨i1, i2, i3, i4, _⟩ := inv
    refine ⟨i1, i2, i3, i4, fun c hc => ?_⟩
    cases hc
    exact hmem
  case isFalse => simp at h

theorem invariant_createService {cfg : Config} {s : StoreState}
    {env : String} {svc : Service} {s' : StoreState}
    (h : createService cfg s env svc = .ok s') (inv : Invariant s) :
    Invariant s' := by
  unfold createService at h
  split at h
  · simp at h
  split at h
  · simp at h
  rename_i hdup
  split at h
  · simp at h
  cases h
  dsimp only [Invariant, NoDupServiceIds, ValidEndpoints, NoSelfLoops,
    NoDupEdges, CurrentValid]
  obtain ⟨i1, i2, i3, i4, i5⟩ := inv
  refine ⟨fun e => ?_, fun e r hr => ?_, i3, i4, i5⟩
  · by_cases he : e = env
    · subst he
      rw [updFn_same]
      simp only [List.map_cons, List.nodup_cons]
      exact ⟨existsId_not_mem (Bool.not_eq_true _ ▸ hdup), i1 e⟩
    · rw [updFn_ne _ _ he]
      exact i1 e
  · obtain ⟨h2a, h2b⟩ := i2 e r hr
    by_cases he : e = env
    · subst he
      rw [updFn_same]
      exact ⟨existsId_mono h2a, existsId_mono h2b⟩
    · rw [updFn_ne _ _ he]
      exact ⟨h2a, h2b⟩

theorem invariant_updateService {s : StoreState} {env i t st : String}
    {s' : StoreState} (h : updateService s env i t st = .ok s')
    (inv : Invariant s) : Invariant s' := by
  unfold updateService at h
  split at h
  · simp at h
  split at h
  case isFalse => simp at h
  cases h
  dsimp only [Invariant, NoDupServiceIds, ValidEndpoints, NoSelfLoops,
    NoDupEdges, CurrentValid]
  obtain ⟨i1, i2, i3, i4, i5⟩ := inv
  refine ⟨fun e => ?_, fun e r hr => ?_, i3, i4, i5⟩
  · by_cases he : e = env
    · subst he
      rw [updFn_same, map_id_update]
      exact i1 e
    · rw [updFn_ne _ _ he]
      exact i1 e
  · obtain ⟨h2a, h2b⟩ := i2 e r hr
    by_cases he : e = env
    · subst he
      rw [updFn_same, existsId_update, existsId_update]
      exact ⟨h2a, h2b⟩
    · rw [updFn_ne _ _ he]
      exact ⟨h2a, h2b⟩

theorem invariant_safeDeleteService {s : StoreState} {env i : String}
    {s' : StoreState} (h : safeDeleteService s env i = .ok s')
    (inv : Invariant s) : Invariant s' := by
  unfold safeDeleteService at h
  split at h
  · simp at h
  split at h
  case isFalse => simp at h
  cases h
  dsimp only [Invariant, NoDupServiceIds, ValidEndpoints, NoSelfLoops,
    NoDupEdges, CurrentValid]
  obtain ⟨i1, i2, i3, i4, i5⟩ := inv
  refine ⟨fun e => ?_, fun e r hr => ?_, fun e r hr => ?_, fun e => ?_, i5⟩
  · by_cases he : e = env
    · subst he
      rw [updFn_same]
      exact ((List.filter_sublist _).map _).nodup (i1 e)
    · rw [updFn_ne _ _ he]
      exact i1 e
  · by_cases he : e = env
    · subst he
      rw [updFn_same] at hr ⊢
      obtain ⟨hrl, hrp⟩ := List.mem_filter.mp hr
      obtain ⟨h2a, h2b⟩ := i2 e r hrl
      simp only [Bool.not_eq_true', Bool.or_eq_false_iff, beq_eq_false_iff_ne,
        ne_eq] at hrp
      exact ⟨existsId_filter h2a hrp.1, existsId_filter h2b hrp.2⟩
    · rw [updFn_ne _ _ he] at hr ⊢
      exact i2 e r hr
  · by_cases he : e = env
    · subst he
      rw [updFn_same] at hr
      exact i3 e r (List.mem_filter.mp hr).1
    · rw [updFn_ne _ _ he] at hr
      exact i3 e r hr
  · by_cases he : e = env
    · subst he
      rw [updFn_same]
      exact ((List.filter_sublist _).map _).nodup (i4 e)
    · rw [updFn_ne _ _ he]
      exact i4 e

theorem invariant_createRelationship {cfg : Config} {s : StoreState}
    {env : String} {rel : Relationship} {s' : StoreState}
    (h : createRelationship cfg s env rel = .ok s') (inv : Invariant s) :
    Invariant s' := by
  unfold createRelationship at h
  split at h
  · simp at h
  split at h
  · simp at h
  rename_i hloop
  split at h
  · simp at h
  rename_i hsrc
  split at h
  · simp at h
  rename_i htgt
  split at h
  · simp at h
  rename_i hdup
  split at h
  · simp at h
  cases h
  dsimp only [Invariant, NoDupServiceIds, ValidEndpoints, NoSelfLoops,
    NoDupEdges, CurrentValid]
  obtain ⟨i1, i2, i3, i4, i5⟩ := inv
  refine ⟨i1, fun e r hr => ?_, fun e r hr => ?_, fun e => ?_, i5⟩
  · by_cases he : e = env
    · subst he
      rw [updFn_same] at hr
      rcases List.mem_cons.mp hr with hnew | hold
      · subst hnew
        constructor
        · simpa using hsrc
        · simpa using htgt
      · exact i2 e r hold
    · rw [updFn_ne _ _ he] at hr
      exact i2 e r hr
  · by_cases he : e = env
    · subst he
      rw [updFn_same] at hr
      rcases List.mem_cons.mp hr with hnew | hold
      · subst hnew
        simpa using hloop
      · exact i3 e r hold
    · rw [updFn_ne _ _ he] at hr
      exact i3 e r hr
  · by_cases he : e = env
    · subst he
      rw [updFn_same]
      simp only [List.map_cons, List.nodup_cons]
      exact ⟨fun hmem => absurd (relKeyMem_any hmem) hdup, i4 e⟩
    · rw [updFn_ne _ _ he]
      exact i4 e

theorem invariant_deleteRelationship {s : StoreState} {env : String}
    {rel : Relationship} {s' : StoreState}
    (h : deleteRelationship s env rel = .ok s') (inv : Invariant s) :
    Invariant s' := by
  unfold deleteRelationship at h
  split at h
  · simp at h
  split at h
  case isFalse => simp at h
  cases h
  dsimp only [Invariant, NoDupServiceIds, ValidEndpoints, NoSelfLoops,
    NoDupEdges, CurrentValid]
  obtain ⟨i1, i2, i3, i4, i5⟩ := inv
  refine ⟨i1, fun e r hr => ?_, fun e r hr => ?_, fun e => ?_, i5⟩
  · by_cases he : e = env
    · subst he
      rw [updFn_same] at hr
      exact i2 e r (List.mem_filter.mp hr).1
    · rw [updFn_ne _ _ he] at hr
      exact i2 e r hr
  · by_cases he : e = env
    · subst he
      rw [updFn_same] at hr
      exact i3 e r (List.mem_filter.mp hr).1
    · rw [updFn_ne _ _ he] at hr
      exact i3 e r hr
  · by_cases he : e = env
    · subst he
      rw [updFn_same]
      exact ((List.filter_sublist _).map _).nodup (i4 e)
    · rw [updFn_ne _ _ he]
      exact i4 e

theorem invariant_validateEnvironment {s : StoreState} {s' : StoreState}
    (h : validateEnvironment s = .ok s') (inv : Invariant s) :
    Invariant s' := by
  unfold validateEnvironment at h
  split at h
  · simp at h
  cases h
  exact inv

theorem invariant_step (cfg : Config) (op : Op) {s : StoreState}
    (inv : Invariant s) : Invariant (step cfg s op) := by
  cases hop : applyOp cfg op s with
  | error e => rw [step_of_error hop]; exact inv
  | ok s' =>
      rw [step_of_ok hop]
      cases op with
      | createEnvironment name => exact invariant_createEnvironment hop inv
      | switchEnvironment name => exact invariant_switchEnvironment hop inv
      | createService env svc => exact invariant_createService hop inv
      | updateService env i t st => exact invariant_updateService hop inv
      | safeDeleteService env i => exact invariant_safeDeleteService hop inv
      | createRelationship env rel => exact invariant_createRelationship hop inv
      | deleteRelationship env rel => exact invariant_deleteRelationship hop inv
      | validate => exact invariant_validateEnvironment hop inv

theorem foldl_invariant (cfg : Config) (ops : List Op) :
    ∀ {s : StoreState}, Invariant s → Invariant (ops.foldl (step cfg) s) := by
  induction ops with
  | nil => exact fun inv => inv
  | cons op rest ih => exact fun inv => ih (invariant_step cfg op inv)

/-- C2: starting from the empty initial state, after any sequence of
operations (accepted ones commit, rejected ones leave the state unchanged)
all five safety invariants hold: unique service ids per environment, valid
relationship endpoints, no self-loops, unique relationship triples, and a
valid current-environment pointer.  Every prefix of a sequence is itself a
sequence, so the invariants hold after each operation. -/
theorem invariant_preservation (cfg : Config) (ops : List Op) :
    Invariant (run cfg ops) :=
  foldl_invariant cfg ops invariant_initState

theorem existsId_filter_self (l : List Service) (i : String) :
    existsId (l.filter (fun sv => !(sv.id == i))) i = false := by
  rw [← Bool.not_eq_true]
  intro hx
  rw [existsId_iff] at hx
  obtain ⟨sv, hsv, hid⟩ := List.mem_map.mp hx
  have hp := (List.mem_filter.mp hsv).2
  simp [hid] at hp

theorem relsTouching_filter (l : List Relationship) (i : String) :
    relsTouching
      (l.filter (fun r => !(r.source == i || r.target == i))) i = [] := by
  rw [relsTouching, List.filter_eq_nil_iff]
  intro r hr
  have hp := (List.mem_filter.mp hr).2
  simp at hp
  simp [hp]

/-- Embeds the backend command `delete_relationships_for_service`
(declared in src/services/tauri.ts lines 411-419): removes every
relationship of the environment whose source or target is the given
service id. -/
def deleteRelationshipsForService (s : StoreState) (env i : String) :
    StoreState :=
  { s with relationships := (updFn s.relationships env
      ((s.relationships env).filter
        (fun r => !(r.source == i || r.target == i)))) }

/-- Embeds the service branch of `handleDelete` in
src/components/editor/DeleteConfirmationModal.tsx (lines 76-112): two
sequential backend calls — `deleteRelationshipsForService`, then
`deleteService` — with no rollback; a call that throws is caught and only
reported by a toast, leaving the effects of the earlier call committed.
The two booleans say whether the first or the second IPC call throws. -/
def handleDeleteService (failFirst failSecond : Bool) (s : StoreState)
    (env i : String) : StoreState :=
  if failFirst then s
  else
    let s1 := deleteRelationshipsForService s env i
    if failSecond then s1
    else
      match deleteService s1 env i with
      | .ok s2 => s2
      | .error _ => s1

/-- Claim C1 as stated: the cascade delete run is atomic — under every
failure pattern it leaves either the original state or the state with the
service and all relationships touching it removed. -/
def CascadeDeleteAtomic : Prop :=
  ∀ (f1 f2 : Bool) (s : StoreState) (env i : String),
    env ∈ s.environments → existsId (s.services env) i = true →
    (∀ e, (handleDeleteService f1 f2 s env i).services e = s.services e ∧
      (handleDeleteService f1 f2 s env i).relationships e =
        s.relationships e) ∨
    (existsId ((handleDeleteService f1 f2 s env i).services env) i = false ∧
      relsTouching ((handleDeleteService f1 f2 s env i).relationships env) i =
        [])

/-- C1 counterexample: in the sample store (service "a", service "b",
relationship "a" -> "b"), when the second backend call fails after the
first succeeded, the relationship is already gone while service "a"
remains — a committed half of the cascade, so the run is not atomic. -/
theorem cascade_not_atomic : ¬ CascadeDeleteAtomic := by
  intro h
  rcases h false true sampleState "dev" "a" (by decide) (by decide) with
    hl | hr
  · exact absurd ((hl "dev").2) (by decide)
  · exact absurd hr.1 (by decide)

/-- C1 amended: the cascade is two sequential calls without rollback.  When
both succeed, exactly the relationships touching the id and the services
carrying the id are removed; when the first call fails nothing changes;
when the second call fails after the first succeeded, the relationship
removals stay committed while every service list is untouched. -/
theorem cascade_two_phase (s : StoreState) (env i : String) (f2 : Bool)
    (henv : env ∈ s.environments)
    (hex : existsId (s.services env) i = true) :
    ((handleDeleteService false false s env i).services env =
        (s.services env).filter (fun sv => !(sv.id == i)) ∧
      (handleDeleteService false false s env i).relationships env =
        (s.relationships env).filter
          (fun r => !(r.source == i || r.target == i)) ∧
      relsTouching
        ((handleDeleteService false false s env i).relationships env) i =
        [] ∧
      existsId ((handleDeleteService false false s env i).services env) i =
        false) ∧
    handleDeleteService true f2 s env i = s ∧
    ((handleDeleteService false true s env i).services = s.services ∧
      (handleDeleteService false true s env i).relationships env =
        (s.relationships env).filter
          (fun r => !(r.source == i || r.target == i))) := by
  have hds : deleteService (deleteRelationshipsForService s env i) env i =
      .ok { s with
        services := (updFn s.services env
          ((s.services env).filter (fun sv => !(sv.id == i))))
        relationships := (updFn s.relationships env
          ((s.relationships env).filter
            (fun r => !(r.source == i || r.target == i)))) } := by
    unfold deleteService deleteRelationshipsForService
    dsimp only
    rw [if_neg (by simpa using henv), if_pos hex]
  have hrun : handleDeleteService false false s env i =
      { s with
        services := (updFn s.services env
          ((s.services env).filter (fun sv => !(sv.id == i))))
        relationships := (updFn s.relationships env
          ((s.relationships env).filter
            (fun r => !(r.source == i || r.target == i)))) } := by
    show (match deleteService (deleteRelationshipsForService s env i) env i
        with
      | .ok s2 => s2
      | .error _ => deleteRelationshipsForService s env i) = _
    rw [hds]
  refine ⟨?_, rfl, ?_⟩
  · rw [hrun]
    dsimp only
    rw [updFn_same, updFn_same]
    exact ⟨rfl, rfl, relsTouching_filter _ _, existsId_filter_self _ _⟩
  · constructor
    · rfl
    · show (deleteRelationshipsForService s env i).relationships env = _
      dsimp only [deleteRelationshipsForService]
      rw [updFn_same]

/-- Witness for the amended C1 on the sample store: the full run removes
service "a" and its relationship, the first-call failure changes nothing,
and the second-call failure leaves services intact with the relationship
already removed. -/
theorem cascade_two_phase_witness :
    ((handleDeleteService false false sampleState "dev" "a").services "dev" =
        (sampleState.services "dev").filter (fun sv => !(sv.id == "a")) ∧
      (handleDeleteService false false sampleState "dev" "a").relationships
          "dev" =
        (sampleState.relationships "dev").filter
          (fun r => !(r.source == "a" || r.target == "a")) ∧
      relsTouching
        ((handleDeleteService false false sampleState "dev" "a").relationships
          "dev") "a" = [] ∧
      existsId
        ((handleDeleteService false false sampleState "dev" "a").services
          "dev") "a" = false) ∧
    handleDeleteService true false sampleState "dev" "a" = sampleState ∧
    ((handleDeleteService false true sampleState "dev" "a").services =
        sampleState.services ∧
      (handleDeleteService false true sampleState "dev" "a").relationships
          "dev" =
        (sampleState.relationships "dev").filter
          (fun r => !(r.source == "a" || r.target == "a"))) :=
  cascade_two_phase sampleState "dev" "a" false (by decide) (by decide)

/-- A frontend service as declared in src/types/service.ts: identifier,
display name, open-enum type and status, optional descriptive fields, tags
and metadata (metadata values, `unknown` in TypeScript, are abstracted as
strings). -/
structure FService where
  id : String
  name : String
  serviceType : String
  status : String
  description : Option String
  version : Option String
  owner : Option String
  team : Option String
  tags : List String
  metadata : List (String × String)
deriving DecidableEq, Repr

/-- One `Map.set` step of a JS `Map`, the operation `new Map(entries)`
performs per entry: an existing key keeps its position and gets the new
value, a new key is appended at the end. -/
def jsMapSet : List (String × FService) → String → FService →
    List (String × FService)
  | [], k, v => [(k, v)]
  | p :: m, k, v => if p.1 == k then (k, v) :: m else p :: jsMapSet m k v

/-- Embeds `new Map(services.map((s) => [s.id, s]))` used by `setServices`
and `refreshServices` of src/store/servicesStore.ts (lines 169-176 and
190-204 of the store section of src/src/store/graphStore.ts): entries are
inserted left to right, so a later service with an already-seen id replaces
the earlier one. -/
def buildServicesMap (svcs : List FService) : List (String × FService) :=
  svcs.foldl (fun m sv => jsMapSet m sv.id sv) []

/-- Embeds `services.get(id)` backing `getService` (line 178). -/
def mapGet (m : List (String × FService)) (k : String) : Option FService :=
  (m.find? (fun p => p.1 == k)).map Prod.snd

/-- Embeds `Array.from(services.values())` backing `getAllServicesArray`
(line 180). -/
def mapValues (m : List (String × FService)) : List FService :=
  m.map Prod.snd

/-- The value the JS replacement semantics keeps for a key: the last
occurrence of the id in the input wins. -/
def lastOcc (svcs : List FService) (i : String) : Option FService :=
  svcs.foldl (fun acc sv => if sv.id == i then some sv else acc) none

theorem mapGet_cons (p : String × FService) (m : List (String × FService))
    (k' : String) :
    mapGet (p :: m) k' = if p.1 = k' then some p.2 else mapGet m k' := by
  by_cases h : p.1 = k'
  · rw [if_pos h]
    unfold mapGet
    rw [List.find?_cons_of_pos _ (by simp [h])]
    rfl
  · rw [if_neg h]
    unfold mapGet
    rw [List.find?_cons_of_neg _ (by simp [h])]

theorem mapGet_set (m : List (String × FService)) (k k' : String)
    (v : FService) :
    mapGet (jsMapSet m k v) k' = if k' = k then some v else mapGet m k' := by
  induction m with
  | nil =>
      show mapGet ((k, v) :: []) k' = _
      rw [mapGet_cons]
      by_cases h : k' = k
      · simp [h]
      · simp [h, Ne.symm h]
  | cons p m ih =>
      by_cases hp : p.1 = k
      · rw [show jsMapSet (p :: m) k v = (k, v) :: m from by
          simp [jsMapSet, hp], mapGet_cons, mapGet_cons]
        by_cases h : k' = k
        · simp [h]
        · have hpk : ¬ p.1 = k' := fun he => h ((hp ▸ he).symm)
          simp [h, Ne.symm h, hpk]
      · rw [show jsMapSet (p :: m) k v = p :: jsMapSet m k v from by
          simp [jsMapSet, hp], mapGet_cons, mapGet_cons, ih]
        by_cases hh : p.1 = k'
        · have h : ¬ k' = k := fun he => hp (by rw [hh, he])
          simp [hh, h]
        · simp [hh]

theorem mem_keys_jsMapSet {m : List (String × FService)} {k x : String}
    {v : FService} :
    x ∈ (jsMapSet m k v).map Prod.fst ↔ x = k ∨ x ∈ m.map Prod.fst := by
  induction m with
  | nil => simp [jsMapSet]
  | cons p m ih =>
      by_cases hp : p.1 = k
      · rw [show jsMapSet (p :: m) k v = (k, v) :: m by simp [jsMapSet, hp]]
        simp [hp]
        try tauto
      · rw [show jsMapSet (p :: m) k v = p :: jsMapSet m k v by
          simp [jsMapSet, hp]]
        simp [ih]
        try tauto

theorem nodup_keys_jsMapSet {m : List (String × FService)} {k : String}
    {v : FService} (h : (m.map Prod.fst).Nodup) :
    ((jsMapSet m k v).map Prod.fst).Nodup := by
  induction m with
  | nil => simp [jsMapSet]
  | cons p m ih =>
      simp only [List.map_cons, List.nodup_cons] at h
      by_cases hp : p.1 = k
      · rw [show jsMapSet (p :: m) k v = (k, v) :: m by simp [jsMapSet, hp]]
        simp only [List.map_cons, List.nodup_cons]
        exact ⟨hp ▸ h.1, h.2⟩
      · rw [show jsMapSet (p :: m) k v = p :: jsMapSet m k v by
          simp [jsMapSet, hp]]
        simp only [List.map_cons, List.nodup_cons]
        refine ⟨fun hmem => ?_, ih h.2⟩
        rcases mem_keys_jsMapSet.mp hmem with he | hm
        · exact hp he
        · exact h.1 hm

theorem coherent_jsMapSet {m : List (String × FService)} {v : FService}
    (h : ∀ p ∈ m, FService.id p.2 = p.1) :
    ∀ p ∈ jsMapSet m v.id v, FService.id p.2 = p.1 := by
  induction m with
  | nil =>
      intro p hp
      simp [jsMapSet] at hp
      simp [hp]
  | cons q m ih =>
      intro p hp
      by_cases hq : q.1 = v.id
      · rw [show jsMapSet (q :: m) v.id v = (v.id, v) :: m by
          simp [jsMapSet, hq]] at hp
        rcases List.mem_cons.mp hp with he | hm
        · simp [he]
        · exact h p (List.mem_cons_of_mem _ hm)
      · rw [show jsMapSet (q :: m) v.id v = q :: jsMapSet m v.id v by
          simp [jsMapSet, hq]] at hp
        rcases List.mem_cons.mp hp with he | hm
        · exact he ▸ h q (List.mem_cons_self _ _)
        · exact ih (fun p hp => h p (List.mem_cons_of_mem _ hp)) p hm

theorem buildServicesMap_get (svcs : List FService) (i : String) :
    mapGet (buildServicesMap svcs) i = lastOcc svcs i := by
  suffices hgen : ∀ (svcs : List FService) (m : List (String × FService))
      (i : String),
      mapGet (svcs.foldl (fun m sv => jsMapSet m sv.id sv) m) i =
        svcs.foldl (fun acc sv => if sv.id == i then some sv else acc)
          (mapGet m i) by
    exact hgen svcs [] i
  intro svcs
  induction svcs with
  | nil => intro m i; rfl
  | cons sv rest ih =>
      intro m i
      rw [List.foldl_cons, List.foldl_cons, ih, mapGet_set]
      congr 1
      by_cases h : sv.id = i
      · simp [h]
      · have h' : ¬ i = sv.id := fun he => h he.symm
        simp [h, h']

theorem buildServicesMap_nodup_keys (svcs : List FService) :
    ((buildServicesMap svcs).map Prod.fst).Nodup := by
  suffices hgen : ∀ (svcs : List FService) (m : List (String × FService)),
      (m.map Prod.fst).Nodup →
      ((svcs.foldl (fun m sv => jsMapSet m sv.id sv) m).map Prod.fst).Nodup by
    exact hgen svcs [] (by simp)
  intro svcs
  induction svcs with
  | nil => exact fun m h => h
  | cons sv rest ih =>
      intro m h
      exact ih _ (nodup_keys_jsMapSet h)

theorem buildServicesMap_coherent (svcs : List FService) :
    ∀ p ∈ buildServicesMap svcs, FService.id p.2 = p.1 := by
  suffices hgen : ∀ (svcs : List FService) (m : List (String × FService)),
      (∀ p ∈ m, FService.id p.2 = p.1) →
      ∀ p ∈ svcs.foldl (fun m sv => jsMapSet m sv.id sv) m,
        FService.id p.2 = p.1 by
    exact hgen svcs [] (by simp)
  intro svcs
  induction svcs with
  | nil => exact fun m h => h
  | cons sv rest ih =>
      intro m h
      exact ih _ (coherent_jsMapSet h)

/-- Embeds `extractAllTags` (src/store/servicesStore.ts lines 153-159): a
set union of all tags of the stored services followed by a sort; the JS
`Set` keeps each tag once, which `List.dedup` also does, and the subsequent
sort makes the kept position irrelevant. -/
def extractAllTags (m : List (String × FService)) : List String :=
  ((m.map (fun p => p.2.tags)).flatten.dedup).mergeSort
    (fun a b => decide (a ≤ b))

/-- The state of the zustand services store
(src/store/servicesStore.ts lines 116-145): the service map, environment
bookkeeping, loading and error flags, and the computed tag list. -/
structure ServicesState where
  services : List (String × FService)
  currentEnvironment : String
  availableEnvironments : List String
  isLoading : Bool
  error : Option String
  allTags : List String
deriving DecidableEq, Repr

/-- The initial store state (lines 161-167). -/
def initServicesState : ServicesState :=
  { services := []
    currentEnvironment := "dev"
    availableEnvironments := []
    isLoading := false
    error := none
    allTags := [] }

/-- Embeds the `setServices` action (lines 169-176): rebuilds the service
map from the input array, recomputes `allTags`, clears the error. -/
def setServices (st : ServicesState) (svcs : List FService) : ServicesState :=
  let m := buildServicesMap svcs
  { st with services := m, allTags := extractAllTags m, error := none }

/-- Embeds `getService` (line 178). -/
def getService (st : ServicesState) (i : String) : Option FService :=
  mapGet st.services i

/-- Embeds `getAllServicesArray` (line 180). -/
def getAllServicesArray (st : ServicesState) : List FService :=
  mapValues st.services

/-- Embeds `refreshServices` (lines 190-204): the backend fetch either
returns a service list or throws; on success the store is updated exactly
as `setServices` does with the loading flag cleared, on failure only the
error message and loading flag change. -/
def refreshServices (st : ServicesState)
    (fetched : Except String (List FService)) : ServicesState :=
  match fetched with
  | .ok svcs =>
      let m := buildServicesMap svcs
      { st with
        services := m
        allTags := extractAllTags m
        error := none
        isLoading := false }
  | .error msg => { st with error := some msg, isLoading := false }

/-- C9: `setServices` deduplicates by id: `getService` returns the last
input occurrence carrying the id, and `getAllServicesArray` never holds two
services with the same id. -/
theorem setServices_dedup (st : ServicesState) (svcs : List FService)
    (i : String) :
    getService (setServices st svcs) i = lastOcc svcs i ∧
    ((getAllServicesArray (setServices st svcs)).map FService.id).Nodup := by
  constructor
  · exact buildServicesMap_get svcs i
  · show ((mapValues (buildServicesMap svcs)).map FService.id).Nodup
    have hcg : (buildServicesMap svcs).map (FService.id ∘ Prod.snd) =
        (buildServicesMap svcs).map Prod.fst :=
      List.map_congr_left (fun p hp => buildServicesMap_coherent svcs p hp)
    rw [mapValues, List.map_map, hcg]
    exact buildServicesMap_nodup_keys svcs

/-- C10: after `setServices`, and equally after a successful
`refreshServices`, `allTags` is the duplicate-free union of the stored
services' tags in ascending string order: sorted, without duplicates, and
holding a tag exactly when some stored service carries it. -/
theorem allTags_spec (st : ServicesState) (svcs : List FService) :
    (refreshServices st (.ok svcs)).allTags = (setServices st svcs).allTags ∧
    List.Sorted (· ≤ ·) (setServices st svcs).allTags ∧
    (setServices st svcs).allTags.Nodup ∧
    (∀ t, t ∈ (setServices st svcs).allTags ↔
      ∃ sv ∈ getAllServicesArray (setServices st svcs), t ∈ sv.tags) := by
  refine ⟨rfl, ?_, ?_, ?_⟩
  · show List.Sorted (· ≤ ·) (extractAllTags (buildServicesMap svcs))
    exact List.sorted_mergeSort' _
  · show (extractAllTags (buildServicesMap svcs)).Nodup
    unfold extractAllTags
    exact ((List.mergeSort_perm _ _).nodup_iff).mpr (List.nodup_dedup _)
  · intro t
    show t ∈ extractAllTags (buildServicesMap svcs) ↔
      ∃ sv ∈ mapValues (buildServicesMap svcs), t ∈ sv.tags
    unfold extractAllTags mapValues
    rw [List.mem_mergeSort, List.mem_dedup, List.mem_flatten]
    constructor
    · rintro ⟨tl, htl, ht⟩
      obtain ⟨p, hp, he⟩ := List.mem_map.mp htl
      exact ⟨p.2, List.mem_map.mpr ⟨p, hp, rfl⟩, he ▸ ht⟩
    · rintro ⟨sv, hsv, ht⟩
      obtain ⟨p, hp, he⟩ := List.mem_map.mp hsv
      exact ⟨p.2.tags, List.mem_map.mpr ⟨p, hp, rfl⟩, by rw [he]; exact ht⟩

/-- Modelled from the spec: the undirected adjacency used by the
neighborhood traversal of section 4.2 (the Rust implementation behind
`get_service_graph` is not in the snapshot) — the services joined to `v` by
one relationship, in either direction. -/
def adjList (rels : List Relationship) (v : String) : List String :=
  rels.filterMap (fun r =>
    if r.source == v then some r.target
    else if r.target == v then some r.source
    else none)

/-- Two services are adjacent when some relationship joins them, in either
direction. -/
def Adj (rels : List Relationship) (a b : String) : Prop :=
  ∃ r ∈ rels, (r.source = a ∧ r.target = b) ∨ (r.source = b ∧ r.target = a)

theorem mem_adjList {rels : List Relationship} {a b : String} :
    b ∈ adjList rels a ↔ Adj rels a b := by
  constructor
  · intro hb
    obtain ⟨r, hr, he⟩ := List.mem_filterMap.mp hb
    by_cases hs : r.source = a
    · rw [if_pos (by simp [hs])] at he
      cases he
      exact ⟨r, hr, Or.inl ⟨hs, rfl⟩⟩
    · rw [if_neg (by simp [hs])] at he
      by_cases ht : r.target = a
      · rw [if_pos (by simp [ht])] at he
        cases he
        exact ⟨r, hr, Or.inr ⟨rfl, ht⟩⟩
      · rw [if_neg (by simp [ht])] at he
        cases he
  · rintro ⟨r, hr, ⟨hs, ht⟩ | ⟨hs, ht⟩⟩
    · refine List.mem_filterMap.mpr ⟨r, hr, ?_⟩
      rw [if_pos (by simp [hs]), ht]
    · by_cases hsa : r.source = a
      · refine List.mem_filterMap.mpr ⟨r, hr, ?_⟩
        rw [if_pos (by simp [hsa])]
        rw [hsa] at hs
        rw [ht, ← hs]
      · refine List.mem_filterMap.mpr ⟨r, hr, ?_⟩
        rw [if_neg (by simp [hsa]), if_pos (by simp [ht]), hs]

/-- Reachability from `c` within a bounded number of undirected hops. -/
inductive WithinHops (rels : List Relationship) (c : String) :
    Nat → String → Prop
  | refl (d : Nat) : WithinHops rels c d c
  | step {d : Nat} {v w : String} : WithinHops rels c d v →
      Adj rels v w → WithinHops rels c (d + 1) w

theorem WithinHops.mono {rels : List Relationship} {c : String} {d : Nat}
    {v : String} (h : WithinHops rels c d v) :
    WithinHops rels c (d + 1) v := by
  induction h with
  | refl d => exact WithinHops.refl (d + 1)
  | step hv hadj ih => exact WithinHops.step ih hadj

theorem withinHops_zero {rels : List Relationship} {c v : String}
    (h : WithinHops rels c 0 v) : v = c := by
  cases h
  rfl

theorem withinHops_succ {rels : List Relationship} {c v : String} {d : Nat}
    (h : WithinHops rels c (d + 1) v) :
    v = c ∨ ∃ u, WithinHops rels c d u ∧ Adj rels u v := by
  cases h with
  | refl => exact Or.inl rfl
  | step hu hadj => exact Or.inr ⟨_, hu, hadj⟩

/-- Modelled from the spec: one BFS expansion — the not-yet-visited
neighbors of the current frontier, listed once each. -/
def bfsNext (rels : List Relationship) (visited frontier : List String) :
    List String :=
  ((frontier.flatMap (adjList rels)).filter
    (fun v => !(visited.contains v))).dedup

/-- Modelled from the spec: depth-bounded breadth-first search, expanding
the frontier once per remaining hop and visiting each service at most
once. -/
def bfsAux (rels : List Relationship) :
    Nat → List String → List String → List String
  | 0, visited, _ => visited
  | d + 1, visited, frontier =>
      bfsAux rels d (visited ++ bfsNext rels visited frontier)
        (bfsNext rels visited frontier)

theorem mem_bfsNext {rels : List Relationship}
    {visited frontier : List String} {v : String} :
    v ∈ bfsNext rels visited frontier ↔
      (∃ u ∈ frontier, Adj rels u v) ∧ v ∉ visited := by
  constructor
  · intro h
    rw [bfsNext, List.mem_dedup, List.mem_filter] at h
    obtain ⟨hm, hv⟩ := h
    obtain ⟨u, hu, hadj⟩ := List.mem_flatMap.mp hm
    refine ⟨⟨u, hu, mem_adjList.mp hadj⟩, ?_⟩
    simpa using hv
  · rintro ⟨⟨u, hu, hadj⟩, hv⟩
    rw [bfsNext, List.mem_dedup, List.mem_filter]
    exact ⟨List.mem_flatMap.mpr ⟨u, hu, mem_adjList.mpr hadj⟩, by simpa using hv⟩

theorem bfsAux_spec (rels : List Relationship) (c : String) :
    ∀ (d k : Nat) (visited frontier : List String),
      (∀ v, v ∈ visited ↔ WithinHops rels c k v) →
      (∀ v ∈ frontier, v ∈ visited) →
      (∀ u ∈ visited, ∀ w, Adj rels u w → w ∈ visited ∨ u ∈ frontier) →
      visited.Nodup →
      (∀ v, v ∈ bfsAux rels d visited frontier ↔
        WithinHops rels c (k + d) v) ∧
      (bfsAux rels d visited frontier).Nodup := by
  intro d
  induction d with
  | zero =>
      intro k visited frontier h1 _ _ h4
      exact ⟨fun v => by rw [Nat.add_zero]; exact h1 v, h4⟩
  | succ d ih =>
      intro k visited frontier h1 h2 h3 h4
      have n1 : ∀ v, v ∈ visited ++ bfsNext rels visited frontier ↔
          WithinHops rels c (k + 1) v := by
        intro v
        rw [List.mem_append]
        constructor
        · rintro (hv | hn)
          · exact ((h1 v).mp hv).mono
          · obtain ⟨⟨u, hu, hadj⟩, _⟩ := mem_bfsNext.mp hn
            exact WithinHops.step ((h1 u).mp (h2 u hu)) hadj
        · intro hw
          rcases withinHops_succ hw with he | ⟨u, hu, hadj⟩
          · exact Or.inl ((h1 v).mpr (he ▸ WithinHops.refl k))
          · rcases h3 u ((h1 u).mpr hu) v hadj with hv | hf
            · exact Or.inl hv
            · by_cases hvv : v ∈ visited
              · exact Or.inl hvv
              · exact Or.inr (mem_bfsNext.mpr ⟨⟨u, hf, hadj⟩, hvv⟩)
      have n2 : ∀ v ∈ bfsNext rels visited frontier,
          v ∈ visited ++ bfsNext rels visited frontier :=
        fun v hv => List.mem_append.mpr (Or.inr hv)
      have n3 : ∀ u ∈ visited ++ bfsNext rels visited frontier, ∀ w,
          Adj rels u w → w ∈ visited ++ bfsNext rels visited frontier ∨
            u ∈ bfsNext rels visited frontier := by
        intro u hu w hadj
        rcases List.mem_append.mp hu with huv | hun
        · rcases h3 u huv w hadj with hwv | huf
          · exact Or.inl (List.mem_append.mpr (Or.inl hwv))
          · by_cases hwvv : w ∈ visited
            · exact Or.inl (List.mem_append.mpr (Or.inl hwvv))
            · exact Or.inl (List.mem_append.mpr
                (Or.inr (mem_bfsNext.mpr ⟨⟨u, huf, hadj⟩, hwvv⟩)))
        · exact Or.inr hun
      have n4 : (visited ++ bfsNext rels visited frontier).Nodup :=
        List.Nodup.append h4 (List.nodup_dedup _)
          (fun a ha hn => (mem_bfsNext.mp hn).2 ha)
      have hrec := ih (k + 1) (visited ++ bfsNext rels visited frontier)
        (bfsNext rels visited frontier) n1 n2 n3 n4
      rw [show k + 1 + d = k + (d + 1) from by omega] at hrec
      exact ⟨fun v => hrec.1 v, hrec.2⟩

/-- The result of the neighborhood query, the shape of `GraphData` in
src/types/graph.ts with services abstracted by their ids: the center, the
connected services, and the relationships among the returned set. -/
structure NeighborhoodData where
  centerId : String
  connected : List String
  relationships : List Relationship
deriving DecidableEq, Repr

/-- Modelled from the spec: the backend command `get_service_graph`
(declared in src/services/tauri.ts lines 202-212; the Rust implementation
is not in the snapshot), per spec section 4.2: an undirected BFS from the
center, visiting each service at most once, stopping at `depth` hops
(default 1 when unspecified), returning the connected services without the
center plus the relationships whose both endpoints are in the returned
set; fails with `NotFound` when the center does not exist in the
environment. -/
def getNeighborhood (s : StoreState) (env centerId : String)
    (depth? : Option Nat) : Except StoreError NeighborhoodData :=
  if existsId (s.services env) centerId then
    let visited := bfsAux (s.relationships env) (depth?.getD 1)
      [centerId] [centerId]
    .ok { centerId := centerId
          connected := visited.filter (fun v => !(v == centerId))
          relationships := (s.relationships env).filter
            (fun r => visited.contains r.source && visited.contains r.target) }
  else .error .notFound

/-- C5: the neighborhood query defaults to depth 1, fails with `NotFound`
for an absent center, and otherwise returns the services reachable within
`d` undirected hops: the connected set excludes the center, lists each
service once, contains exactly the services with a path of at most `d`
hops from the center, and comes with exactly the relationships whose both
endpoints are in the center-plus-connected set; at depth 0 only the center
is returned, with no relationships when the store has no self-loops. -/
theorem getNeighborhood_spec (s : StoreState) (env c : String) (d : Nat)
    (hc : existsId (s.services env) c = true) :
    getNeighborhood s env c none = getNeighborhood s env c (some 1) ∧
    (∀ i, existsId (s.services env) i = false →
      getNeighborhood s env i (some d) = .error .notFound) ∧
    (∃ g, getNeighborhood s env c (some d) = .ok g ∧
      g.centerId = c ∧
      c ∉ g.connected ∧
      g.connected.Nodup ∧
      (∀ v, v ∈ g.connected ↔
        (v ≠ c ∧ WithinHops (s.relationships env) c d v)) ∧
      (∀ r, r ∈ g.relationships ↔
        (r ∈ s.relationships env ∧ r.source ∈ c :: g.connected ∧
          r.target ∈ c :: g.connected)) ∧
      (d = 0 → g.connected = [] ∧
        (NoSelfLoops s → g.relationships = []))) := by
  have hinit1 : ∀ v, v ∈ [c] ↔ WithinHops (s.relationships env) c 0 v := by
    intro v
    constructor
    · intro hv
      rw [List.mem_singleton] at hv
      exact hv ▸ WithinHops.refl 0
    · intro hv
      rw [List.mem_singleton]
      exact withinHops_zero hv
  have hbfs := bfsAux_spec (s.relationships env) c d 0 [c] [c] hinit1
    (fun v hv => hv) (fun u hu w _ => Or.inr hu) (List.nodup_singleton c)
  rw [Nat.zero_add] at hbfs
  have hcvis : c ∈ bfsAux (s.relationships env) d [c] [c] :=
    (hbfs.1 c).mpr (WithinHops.refl d)
  have hvc : ∀ x, x ∈ bfsAux (s.relationships env) d [c] [c] ↔
      x ∈ c :: (bfsAux (s.relationships env) d [c] [c]).filter
        (fun v => !(v == c)) := by
    intro x
    rw [List.mem_cons, List.mem_filter]
    constructor
    · intro hx
      by_cases hxc : x = c
      · exact Or.inl hxc
      · exact Or.inr ⟨hx, by simpa using hxc⟩
    · rintro (he | ⟨hx, _⟩)
      · exact he ▸ hcvis
      · exact hx
  refine ⟨rfl, fun i hi => by simp [getNeighborhood, hi], ?_⟩
  refine ⟨{ centerId := c
            connected := (bfsAux (s.relationships env) d [c] [c]).filter
              (fun v => !(v == c))
            relationships := (s.relationships env).filter
              (fun r =>
                (bfsAux (s.relationships env) d [c] [c]).contains r.source &&
                (bfsAux (s.relationships env) d [c] [c]).contains r.target) },
    ?_, rfl, ?_, ?_, ?_, ?_, ?_⟩
  · unfold getNeighborhood
    rw [if_pos hc]
    rfl
  · intro hmem
    have := (List.mem_filter.mp hmem).2
    simp at this
  · exact List.Nodup.filter _ hbfs.2
  · intro v
    rw [List.mem_filter]
    constructor
    · rintro ⟨hv, hp⟩
      exact ⟨by simpa using hp, (hbfs.1 v).mp hv⟩
    · rintro ⟨hne, hw⟩
      exact ⟨(hbfs.1 v).mpr hw, by simpa using hne⟩
  · intro r
    rw [List.mem_filter, Bool.and_eq_true]
    constructor
    · rintro ⟨hr, hs', ht'⟩
      refine ⟨hr, (hvc r.source).mp (by simpa using hs'),
        (hvc r.target).mp (by simpa using ht')⟩
    · rintro ⟨hr, hs', ht'⟩
      refine ⟨hr, by simpa using (hvc r.source).mpr hs',
        by simpa using (hvc r.target).mpr ht'⟩
  · intro hd
    subst hd
    constructor
    · show List.filter (fun v => !(v == c)) [c] = []
      simp
    · intro hnsl
      show List.filter _ (s.relationships env) = []
      rw [List.filter_eq_nil_iff]
      intro r hr
      have hne := hnsl env r hr
      rw [Bool.and_eq_true]
      rintro ⟨hs', ht'⟩
      have hsc : r.source = c := by simpa [bfsAux] using hs'
      have htc : r.target = c := by simpa [bfsAux] using ht'
      exact hne (hsc.trans htc.symm)

/-- Witness for C5: in the sample store, the depth-1 neighborhood of "a"
exists and contains "b" exactly because "b" is one hop from "a". -/
theorem getNeighborhood_spec_witness :
    ∃ g, getNeighborhood sampleState "dev" "a" (some 1) = .ok g ∧
      ("b" ∈ g.connected ↔ ("b" ≠ "a" ∧
        WithinHops (sampleState.relationships "dev") "a" 1 "b")) := by
  obtain ⟨g, hok, _, _, _, hmem, _, _⟩ :=
    (getNeighborhood_spec sampleState "dev" "a" 1 (by decide)).2.2
  exact ⟨g, hok, hmem "b"⟩

/-- The chain environment of the spec's worked example (section 8):
services A, B, C, D with A -> B, B -> C, C -> D, all `depends_on`. -/
def chainState : StoreState :=
  { environments := ["dev"]
    currentEnvironment := some "dev"
    services := fun e => if e = "dev" then
      [⟨"A", "api", "healthy"⟩, ⟨"B", "api", "healthy"⟩,
       ⟨"C", "api", "healthy"⟩, ⟨"D", "api", "healthy"⟩] else []
    relationships := fun e => if e = "dev" then
      [⟨"A", "B", "depends_on"⟩, ⟨"B", "C", "depends_on"⟩,
       ⟨"C", "D", "depends_on"⟩] else []
    validationErrors := [] }

/-- The spec's neighborhood example checks out on the model: depth 1 from A
gives connected {B} with edge A -> B, depth 2 gives {B, C} with edges
A -> B and B -> C. -/
theorem chain_neighborhood_example :
    getNeighborhood chainState "dev" "A" (some 1) =
      .ok ⟨"A", ["B"], [⟨"A", "B", "depends_on"⟩]⟩ ∧
    getNeighborhood chainState "dev" "A" (some 2) =
      .ok ⟨"A", ["B", "C"],
        [⟨"A", "B", "depends_on"⟩, ⟨"B", "C", "depends_on"⟩]⟩ := by
  constructor <;> rfl

end DepMap
